import Mathlib

set_option maxHeartbeats 1000000

/-!
Shallow embedding of the execution-core boundary of the massa repository
(src/massa-execution-exports/src/controller_traits.rs) together with the
worker behavior that the trait specifies.  The trait file only declares the
interface; the worker, ledger, sandbox and model types live in crates that
are not part of src/, so those parts are modelled from the spec, as marked
on each definition.
-/

namespace Massa

/-- Address of an account (massa_models::Address, not under src/), modelled
as an opaque identifier. -/
abbrev Address := Nat

/-- Amount (massa_models::Amount, not under src/), modelled as a natural
number of elementary currency units. -/
abbrev Amount := Nat

/-- BlockId (massa_models::BlockId, not under src/), modelled as an opaque
identifier. -/
abbrev BlockId := Nat

/-- OperationId (massa_models::OperationId, not under src/), modelled as an
opaque identifier. -/
abbrev OperationId := Nat

/-- A byte string (Rust Vec<u8>); bytes are modelled as naturals. -/
abbrev Bytes := List Nat

/-- Slot (massa_models::Slot, not under src/): a (period, thread) chain
coordinate. -/
structure Slot where
  period : Nat
  thread : Nat
deriving DecidableEq

/-- Modelled from the spec (section 3; operation payload types are not under
src/): an operation carrying a transfer payload between two addresses. -/
structure Operation where
  id : OperationId
  source : Address
  dest : Address
  amount : Amount
deriving DecidableEq

/-- Modelled from the spec (sections 3 and 6; the massa_storage crate is not
under src/): an opaque reference-counted handle owning read access to a
block's operation content. -/
structure Storage where
  ref : Nat
  ops : List Operation
deriving DecidableEq

/-- Modelled from the spec (sections 3 and 4.1; the ledger implementation is
not under src/): a per-address ledger entry holding the two balances and the
byte-keyed datastore. -/
structure LedgerEntry where
  parallel_balance : Amount
  sequential_balance : Amount
  datastore : List (Bytes × Bytes)
deriving DecidableEq

/-- One view of the ledger state: an association list from address to entry. -/
abbrev Ledger := List (Address × LedgerEntry)

/-- Look an address up in a ledger view; none when the address is unknown to
that view. -/
def lookupLedger (l : Ledger) (a : Address) : Option LedgerEntry :=
  l.lookup a

/-- SCOutputEvent (massa_models::output_event, not under src/), modelled as
the emitter together with the event payload. -/
structure SCOutputEvent where
  emitter : Address
  data : Bytes
deriving DecidableEq

/-- ExecutionOutput (massa-execution-exports types module, not under src/),
modelled from the spec (section 3): resulting state diff, emitted events and
resource-usage metadata. -/
structure ExecutionOutput where
  state_diff : List (Address × LedgerEntry)
  events : List SCOutputEvent
  gas_used : Nat
deriving DecidableEq

/-- Modelled from the spec (section 7; the ExecutionError type is not under
src/): the recoverable read-only call failures. -/
inductive ExecutionError where
  | TargetNotFound
  | ResourceExhausted
  | RuntimeTrap
deriving DecidableEq

/-- Modelled from the spec (sections 4.4 and 6; the virtual machine is out of
scope): the observable behavior of a deployed contract, as a deterministic
computation descriptor: its gas cost, whether it traps, and the state diff
and events it would produce. -/
structure ContractCode where
  gas_cost : Nat
  traps : Bool
  diff : List (Address × LedgerEntry)
  events : List SCOutputEvent
deriving DecidableEq

/-- ReadOnlyExecutionRequest (massa-execution-exports types module, not under
src/), modelled from the spec (section 4.4): a call descriptor with a target
contract and a resource budget. -/
structure ReadOnlyExecutionRequest where
  target : Address
  max_gas : Nat
deriving DecidableEq

/-- Modelled from the spec (sections 2 and 4.5; the worker is not under
src/): the state owned by the single execution worker, as observed through
the controller: the Final and Candidate ledger views, the event store, the
currently held blockclique, the executed-operation records of both views,
the per-cycle frozen roll snapshots and the deployed contracts. -/
structure ControllerState where
  final_ledger : Ledger
  candidate_ledger : Ledger
  event_store : List SCOutputEvent
  blockclique : List (Slot × BlockId × Storage)
  executed_ops_final : List OperationId
  executed_ops_candidate : List OperationId
  cycle_roll_snapshots : List (Nat × List (Address × Nat))
  contracts : List (Address × ContractCode)
deriving DecidableEq

/-- Overwrite (or append) the entry of one address in a ledger view. -/
def setEntry (l : Ledger) (a : Address) (e : LedgerEntry) : Ledger :=
  match l with
  | [] => [(a, e)]
  | (a0, e0) :: rest =>
    if a0 = a then (a, e) :: rest else (a0, e0) :: setEntry rest a e

/-- Modelled from the spec (section 4.1; the pipeline is not under src/):
apply one operation to a ledger view; none signals an operation-level
rejection (unknown source address or insufficient balance). -/
def applyOperation (l : Ledger) (op : Operation) : Option Ledger :=
  match l.lookup op.source with
  | none => none
  | some se =>
    if se.parallel_balance < op.amount then none
    else
      let l1 := setEntry l op.source
        { se with parallel_balance := se.parallel_balance - op.amount }
      let de := (l1.lookup op.dest).getD
        { parallel_balance := 0, sequential_balance := 0, datastore := [] }
      some (setEntry l1 op.dest
        { de with parallel_balance := de.parallel_balance + op.amount })

/-- Modelled from the spec (section 4.3; the pipeline is not under src/):
apply a slot's operations in listed order to a ledger view, skipping
rejected operations without failing the slot; returns the resulting ledger,
the ids of the operations actually executed, and the emitted events. -/
def executeSlotOps (l : Ledger) (s : Slot) :
    List Operation → Ledger × List OperationId × List SCOutputEvent
  | [] => (l, [], [])
  | op :: rest =>
    match applyOperation l op with
    | none => executeSlotOps l s rest
    | some l1 =>
      let r := executeSlotOps l1 s rest
      (r.1, op.id :: r.2.1,
        { emitter := op.source, data := [s.period, s.thread, op.id] } :: r.2.2)

/-- Modelled from the spec (sections 2 and 4.3; the execution pipeline is not
under src/): execute one slot with its operation list against a state
snapshot, producing an ExecutionOutput holding the state diff and the event
sequence. -/
def executeSlot (l : Ledger) (s : Slot) (ops : List Operation) :
    ExecutionOutput :=
  let r := executeSlotOps l s ops
  { state_diff := r.1, events := r.2.2, gas_used := r.2.1.length }

/-- Strict order on slots: by period, then by thread. -/
def slotLt (a b : Slot) : Bool :=
  decide (a.period < b.period) ||
    (a.period == b.period && decide (a.thread < b.thread))

/-- Insert a (slot, block, storage) triple into a slot-sorted list. -/
def insertBySlot (x : Slot × BlockId × Storage) :
    List (Slot × BlockId × Storage) → List (Slot × BlockId × Storage)
  | [] => [x]
  | y :: ys => if slotLt x.1 y.1 then x :: y :: ys else y :: insertBySlot x ys

/-- Sort a list of (slot, block, storage) triples into increasing slot
order. -/
def sortBySlot (l : List (Slot × BlockId × Storage)) :
    List (Slot × BlockId × Storage) :=
  l.foldr insertBySlot []

/-- Modelled from the spec (section 4.3 step 1; the pipeline is not under
src/): apply newly finalized blocks to the Final view in increasing slot
order, recording executed operations and persisting emitted events. -/
def finalizeBlocks (st : ControllerState)
    (finalized : List (Slot × BlockId × Storage)) : ControllerState :=
  (sortBySlot finalized).foldl
    (fun acc sbs =>
      let r := executeSlotOps acc.final_ledger sbs.1 sbs.2.2.ops
      { acc with
          final_ledger := r.1,
          executed_ops_final := acc.executed_ops_final ++ r.2.1,
          event_store := acc.event_store ++ r.2.2 })
    st

/-- Modelled from the spec (sections 4.3 and 9; the blockclique reconciler is
not under src/): process an update_blockclique_status notification
(controller_traits.rs lines 28-32): finalize the newly finalized blocks,
replace the held blockclique with the new one, and re-derive the Candidate
view from Final by replaying the new blockclique in increasing slot order. -/
def update_blockclique_status (st : ControllerState)
    (finalized blockclique : List (Slot × BlockId × Storage)) :
    ControllerState :=
  let st1 := finalizeBlocks st finalized
  let replay := (sortBySlot blockclique).foldl
    (fun (acc : Ledger × List OperationId × List SCOutputEvent) sbs =>
      let r := executeSlotOps acc.1 sbs.1 sbs.2.2.ops
      (r.1, acc.2.1 ++ r.2.1, acc.2.2 ++ r.2.2))
    (st1.final_ledger, [], [])
  { st1 with
      candidate_ledger := replay.1,
      executed_ops_candidate := st1.executed_ops_final ++ replay.2.1,
      blockclique := blockclique }

/-- The update_blockclique_status API call as seen by the caller
(controller_traits.rs lines 28-32): a fire-and-forget notification whose
return type carries no value and no error; the state transition happens
inside the worker. -/
def update_blockclique_status_api (st : ControllerState)
    (finalized blockclique : List (Slot × BlockId × Storage)) :
    Unit × ControllerState :=
  ((), update_blockclique_status st finalized blockclique)

/-- Final-view parallel balance of one address; none if unknown. -/
def finalParallelBalance (st : ControllerState) (a : Address) : Option Amount :=
  (lookupLedger st.final_ledger a).map (fun e => e.parallel_balance)

/-- Candidate-view parallel balance of one address; none if unknown. -/
def candidateParallelBalance (st : ControllerState) (a : Address) :
    Option Amount :=
  (lookupLedger st.candidate_ledger a).map (fun e => e.parallel_balance)

/-- Final-view sequential balance of one address; none if unknown. -/
def finalSequentialBalance (st : ControllerState) (a : Address) :
    Option Amount :=
  (lookupLedger st.final_ledger a).map (fun e => e.sequential_balance)

/-- Candidate-view sequential balance of one address; none if unknown. -/
def candidateSequentialBalance (st : ControllerState) (a : Address) :
    Option Amount :=
  (lookupLedger st.candidate_ledger a).map (fun e => e.sequential_balance)

/-- Modelled from the spec (section 6; the worker serving the query is not
under src/): per-address (final, candidate) optional parallel balances
(controller_traits.rs lines 46-50). -/
def get_final_and_active_parallel_balance (st : ControllerState) :
    List Address → List (Option Amount × Option Amount)
  | [] => []
  | a :: rest =>
    (finalParallelBalance st a, candidateParallelBalance st a) ::
      get_final_and_active_parallel_balance st rest

/-- Modelled from the spec (section 6; the worker serving the query is not
under src/): per-address (final, candidate) optional sequential balances
(controller_traits.rs lines 54-58). -/
def get_final_and_active_sequential_balance (st : ControllerState) :
    List Address → List (Option Amount × Option Amount)
  | [] => []
  | a :: rest =>
    (finalSequentialBalance st a, candidateSequentialBalance st a) ::
      get_final_and_active_sequential_balance st rest

/-- Strict lexicographic order on byte strings, byte by byte. -/
def lexLt : Bytes → Bytes → Bool
  | _, [] => false
  | [], _ :: _ => true
  | a :: as, b :: bs => decide (a < b) || (a == b && lexLt as bs)

/-- Insert a key into a strictly lex-sorted key list, keeping set semantics:
a key already present is not duplicated.  This models insertion into a Rust
BTreeSet<Vec<u8>> under the lexicographic Ord of Vec<u8>. -/
def insertKeySet (k : Bytes) : List Bytes → List Bytes
  | [] => [k]
  | x :: xs =>
    if lexLt k x then k :: x :: xs
    else if lexLt x k then x :: insertKeySet k xs
    else x :: xs

/-- Build the BTreeSet<Vec<u8>> of a key list: the distinct keys in strictly
increasing lexicographic byte order. -/
def btreeSetOfKeys (ks : List Bytes) : List Bytes :=
  ks.foldr insertKeySet []

/-- The raw datastore keys of one address in one ledger view. -/
def datastoreKeys (l : Ledger) (a : Address) : List Bytes :=
  match lookupLedger l a with
  | none => []
  | some e => e.datastore.map Prod.fst

/-- Modelled from the spec (section 6; the worker serving the query is not
under src/): the (final key set, candidate key set) pair of an address, each
set a BTreeSet<Vec<u8>> (controller_traits.rs lines 74-77). -/
def get_final_and_active_datastore_keys (st : ControllerState)
    (addr : Address) : List Bytes × List Bytes :=
  (btreeSetOfKeys (datastoreKeys st.final_ledger addr),
   btreeSetOfKeys (datastoreKeys st.candidate_ledger addr))

/-- Modelled from the spec (section 4.3; the worker serving the query is not
under src/): the frozen roll mapping associated with cycle - 1, or the empty
mapping when that snapshot has not been produced (controller_traits.rs lines
79-83: by default it returns an empty map). -/
def get_cycle_rolls (st : ControllerState) (cycle : Nat) :
    List (Address × Nat) :=
  (st.cycle_roll_snapshots.lookup (cycle - 1)).getD []

/-- Modelled from the spec (section 4.3; the worker serving the query is not
under src/): the subset of the given operation ids not recorded as executed
in either the Final or the Candidate view (controller_traits.rs lines
98-99). -/
def unexecuted_ops_among (st : ControllerState) (ops : List OperationId) :
    List OperationId :=
  ops.filter (fun o =>
    decide (o ∉ st.executed_ops_final ∧ o ∉ st.executed_ops_candidate))

/-- Modelled from the spec (sections 4.4 and 6; the sandbox is not under
src/): run a read-only call against the current state: fails when the target
contract does not exist, the resource budget is exhausted, or the call
traps; otherwise yields the ExecutionOutput the virtual machine produced. -/
def runReadonly (st : ControllerState) (req : ReadOnlyExecutionRequest) :
    Except ExecutionError ExecutionOutput :=
  match st.contracts.lookup req.target with
  | none => .error .TargetNotFound
  | some c =>
    if req.max_gas < c.gas_cost then .error .ResourceExhausted
    else if c.traps then .error .RuntimeTrap
    else .ok { state_diff := c.diff, events := c.events, gas_used := c.gas_cost }

/-- execute_readonly_request (controller_traits.rs lines 93-96): returns the
sandboxed result to the caller and hands back the controller state; per the
spec (section 4.4) all mutations and events of the sandboxed run are
discarded, so the state component is the input state. -/
def execute_readonly_request (st : ControllerState)
    (req : ReadOnlyExecutionRequest) :
    Except ExecutionError ExecutionOutput × ControllerState :=
  match runReadonly st req with
  | .ok out => (.ok out, st)
  | .error e => (.error e, st)

/-- Modelled from the spec (sections 4.5 and 9; the controller
implementation is not under src/): the shared-ownership controller handle
wrapping a channel to the single worker, identified here by the worker it
addresses. -/
structure ExecutionControllerHandle where
  worker_id : Nat
deriving DecidableEq

/-- Modelled from the spec (section 9): clone_box duplicates the
shared-ownership handle to the single worker, never the worker or its
state (controller_traits.rs lines 103-105). -/
def clone_box (c : ExecutionControllerHandle) : ExecutionControllerHandle :=
  { worker_id := c.worker_id }

/-- The Clone implementation of Box<dyn ExecutionController>
(controller_traits.rs lines 108-112): clone just calls clone_box. -/
def cloneController (c : ExecutionControllerHandle) :
    ExecutionControllerHandle :=
  clone_box c

/-- Well-formedness of a HashMap<Slot, (BlockId, Storage)> value
(controller_traits.rs lines 30-31): its keys are distinct; a Rust HashMap
guarantees nothing about entry order. -/
def hashMapWF (m : List (Slot × BlockId × Storage)) : Prop :=
  (m.map Prod.fst).Nodup

/-- A blockclique argument is ordered by slot when its entries appear in
strictly increasing slot order. -/
def orderedBySlot (m : List (Slot × BlockId × Storage)) : Prop :=
  (m.map Prod.fst).Pairwise (fun a b => slotLt a b = true)

/-- At most one block is associated with each slot. -/
def atMostOneBlockPerSlot (m : List (Slot × BlockId × Storage)) : Prop :=
  ∀ s : Slot, (m.filter (fun e => e.1 == s)).length ≤ 1

/-! Helper lemmas about the lexicographic key order and BTreeSet insertion. -/

theorem lexLt_trans : ∀ {a b c : Bytes},
    lexLt a b = true → lexLt b c = true → lexLt a c = true := by
  intro a
  induction a with
  | nil =>
    intro b c hab hbc
    cases c with
    | nil =>
      cases b with
      | nil => simp [lexLt] at hab
      | cons y ys => simp [lexLt] at hbc
    | cons z zs => simp [lexLt]
  | cons x xs ih =>
    intro b c hab hbc
    cases b with
    | nil => simp [lexLt] at hab
    | cons y ys =>
      cases c with
      | nil => simp [lexLt] at hbc
      | cons z zs =>
        simp only [lexLt, Bool.or_eq_true, Bool.and_eq_true,
          decide_eq_true_eq, beq_iff_eq] at hab hbc ⊢
        rcases hab with h1 | ⟨he, h2⟩ <;> rcases hbc with g1 | ⟨ge, g2⟩
        · exact Or.inl (Nat.lt_trans h1 g1)
        · exact Or.inl (ge ▸ h1)
        · exact Or.inl (he ▸ g1)
        · exact Or.inr ⟨he.trans ge, ih h2 g2⟩

theorem mem_insertKeySet {y k : Bytes} : ∀ {xs : List Bytes},
    y ∈ insertKeySet k xs → y = k ∨ y ∈ xs := by
  intro xs
  induction xs with
  | nil => intro h; simpa [insertKeySet] using h
  | cons x xs ih =>
    intro h
    simp only [insertKeySet] at h
    by_cases h1 : lexLt k x = true
    · simp [h1] at h
      rcases h with h | h | h
      · exact Or.inl h
      · exact Or.inr (by simp [h])
      · exact Or.inr (by simp [h])
    · by_cases h2 : lexLt x k = true
      · simp [h1, h2] at h
        rcases h with h | h
        · exact Or.inr (by simp [h])
        · rcases ih h with h | h
          · exact Or.inl h
          · exact Or.inr (by simp [h])
      · simp [h1, h2] at h
        rcases h with h | h
        · exact Or.inr (by simp [h])
        · exact Or.inr (by simp [h])

theorem pairwise_insertKeySet {k : Bytes} : ∀ {xs : List Bytes},
    xs.Pairwise (fun a b => lexLt a b = true) →
    (insertKeySet k xs).Pairwise (fun a b => lexLt a b = true) := by
  intro xs
  induction xs with
  | nil => intro _; simp [insertKeySet]
  | cons x xs ih =>
    intro h
    rcases List.pairwise_cons.mp h with ⟨hx, hxs⟩
    simp only [insertKeySet]
    by_cases h1 : lexLt k x = true
    · simp only [h1, if_true]
      refine List.pairwise_cons.mpr ⟨?_, h⟩
      intro y hy
      rcases List.mem_cons.mp hy with rfl | hy
      · exact h1
      · exact lexLt_trans h1 (hx y hy)
    · by_cases h2 : lexLt x k = true
      · simp only [h1, if_false, h2, if_true]
        refine List.pairwise_cons.mpr ⟨?_, ih hxs⟩
        intro y hy
        rcases mem_insertKeySet hy with rfl | hy
        · exact h2
        · exact hx y hy
      · simp only [h1, if_false, h2]
        exact h

theorem pairwise_btreeSetOfKeys (ks : List Bytes) :
    (btreeSetOfKeys ks).Pairwise (fun a b => lexLt a b = true) := by
  induction ks with
  | nil => simp [btreeSetOfKeys]
  | cons k ks ih => exact pairwise_insertKeySet ih

/-! Theorems settling the claims. -/

/-- C1: executing a slot with its operation list against a state snapshot
twice independently yields bit-identical state diffs and bit-identical event
sequences: in this embedding slot execution is a pure function of the
(preceding state, slot, operations) triple, so any two runs on an identical
triple, for instance a replay after a reorg, agree exactly. -/
theorem executeSlot_deterministic (l : Ledger) (s : Slot)
    (ops : List Operation) (r1 r2 : ExecutionOutput)
    (h1 : r1 = executeSlot l s ops) (h2 : r2 = executeSlot l s ops) :
    r1.state_diff = r2.state_diff ∧ r1.events = r2.events := by
  subst h1; subst h2; exact ⟨rfl, rfl⟩

/-- A small concrete ledger used by the determinism witness. -/
def demoLedger : Ledger :=
  [(1, { parallel_balance := 10, sequential_balance := 0, datastore := [] }),
   (2, { parallel_balance := 0, sequential_balance := 0, datastore := [] })]

/-- A small concrete operation list used by the determinism witness. -/
def demoOps : List Operation :=
  [{ id := 100, source := 1, dest := 2, amount := 10 },
   { id := 101, source := 1, dest := 2, amount := 10 }]

theorem executeSlot_deterministic_witness :
    (executeSlot demoLedger ⟨1, 0⟩ demoOps).state_diff =
      (executeSlot demoLedger ⟨1, 0⟩ demoOps).state_diff ∧
    (executeSlot demoLedger ⟨1, 0⟩ demoOps).events =
      (executeSlot demoLedger ⟨1, 0⟩ demoOps).events :=
  executeSlot_deterministic demoLedger ⟨1, 0⟩ demoOps
    (executeSlot demoLedger ⟨1, 0⟩ demoOps)
    (executeSlot demoLedger ⟨1, 0⟩ demoOps) rfl rfl

/-- C2: execute_readonly_request leaves the Final ledger, the Candidate
ledger and the Event Store exactly unchanged, whether it returns an output
or an error; in fact the whole controller state is returned as it was, so
nothing from the sandboxed run is persisted. -/
theorem execute_readonly_request_frame (st : ControllerState)
    (req : ReadOnlyExecutionRequest) :
    (execute_readonly_request st req).2.final_ledger = st.final_ledger ∧
    (execute_readonly_request st req).2.candidate_ledger =
      st.candidate_ledger ∧
    (execute_readonly_request st req).2.event_store = st.event_store ∧
    (execute_readonly_request st req).2 = st := by
  unfold execute_readonly_request
  cases runReadonly st req <;> exact ⟨rfl, rfl, rfl, rfl⟩

/-- C3: execute_readonly_request returns its failures to the caller inside
the Except value, and the result is an error exactly when the target
contract does not exist, the resource budget is exhausted, or the call
produces a runtime trap. -/
theorem execute_readonly_request_errors (st : ControllerState)
    (req : ReadOnlyExecutionRequest) :
    (∃ e, (execute_readonly_request st req).1 = .error e) ↔
      st.contracts.lookup req.target = none ∨
      ∃ c, st.contracts.lookup req.target = some c ∧
        (req.max_gas < c.gas_cost ∨ c.traps = true) := by
  unfold execute_readonly_request runReadonly
  cases hc : st.contracts.lookup req.target with
  | none => simp
  | some c =>
    by_cases hg : req.max_gas < c.gas_cost
    · simp [hg]
    · by_cases ht : c.traps
      · simp [hg, ht]
      · simp [hg, ht]

/-- C5: both components of get_final_and_active_datastore_keys list the keys
in strictly increasing lexicographic byte order, giving a deterministic
iteration order. -/
theorem get_datastore_keys_sorted (st : ControllerState) (addr : Address) :
    (get_final_and_active_datastore_keys st addr).1.Pairwise
      (fun a b => lexLt a b = true) ∧
    (get_final_and_active_datastore_keys st addr).2.Pairwise
      (fun a b => lexLt a b = true) :=
  ⟨pairwise_btreeSetOfKeys _, pairwise_btreeSetOfKeys _⟩

/-- C6: unexecuted_ops_among returns exactly the members of the input set
not recorded as executed in either the Final or the Candidate view; in
particular the result is a subset of the input. -/
theorem unexecuted_ops_among_spec (st : ControllerState)
    (ops : List OperationId) :
    (∀ o, o ∈ unexecuted_ops_among st ops ↔
      o ∈ ops ∧ o ∉ st.executed_ops_final ∧
        o ∉ st.executed_ops_candidate) ∧
    unexecuted_ops_among st ops ⊆ ops := by
  constructor
  · intro o
    simp [unexecuted_ops_among, List.mem_filter]
  · intro o ho
    exact (List.mem_filter.mp ho).1

/-- C7: get_cycle_rolls returns the frozen roll mapping associated with
cycle - 1 whenever that snapshot has been produced, and the empty mapping,
not an error, whenever it has not. -/
theorem get_cycle_rolls_spec (st : ControllerState) (cycle : Nat) :
    (∀ m, st.cycle_roll_snapshots.lookup (cycle - 1) = some m →
      get_cycle_rolls st cycle = m) ∧
    (st.cycle_roll_snapshots.lookup (cycle - 1) = none →
      get_cycle_rolls st cycle = []) := by
  constructor
  · intro m hm
    simp [get_cycle_rolls, hm]
  · intro hn
    simp [get_cycle_rolls, hn]

/-- A concrete state that has produced the roll snapshot of cycle 4 only. -/
def rollsDemoState : ControllerState :=
  { final_ledger := [], candidate_ledger := [], event_store := [],
    blockclique := [], executed_ops_final := [],
    executed_ops_candidate := [],
    cycle_roll_snapshots := [(4, [(7, 3)])], contracts := [] }

theorem get_cycle_rolls_spec_witness :
    get_cycle_rolls rollsDemoState 5 = [(7, 3)] ∧
    get_cycle_rolls rollsDemoState 9 = [] :=
  ⟨(get_cycle_rolls_spec rollsDemoState 5).1 [(7, 3)] rfl,
   (get_cycle_rolls_spec rollsDemoState 9).2 rfl⟩

/-- C8: update_blockclique_status is a fire-and-forget notification: for
every input the API call returns the unit value and a successor state, never
an error; and an operation-level rejection inside the triggered
reconciliation is absorbed internally, the rejected operation being skipped
without affecting the rest of the slot or surfacing through the call. -/
theorem update_blockclique_status_never_fails :
    (∀ (st : ControllerState)
      (finalized blockclique : List (Slot × BlockId × Storage)),
      update_blockclique_status_api st finalized blockclique =
        ((), update_blockclique_status st finalized blockclique)) ∧
    (∀ (l : Ledger) (s : Slot) (ops : List Operation) (op : Operation),
      applyOperation l op = none →
      executeSlotOps l s (op :: ops) = executeSlotOps l s ops) := by
  constructor
  · intro st finalized blockclique
    rfl
  · intro l s ops op h
    simp [executeSlotOps, h]

/-- An operation rejected on any ledger lacking address 1 (unknown source). -/
def rejectedOp : Operation :=
  { id := 200, source := 1, dest := 2, amount := 5 }

theorem update_blockclique_status_never_fails_witness :
    update_blockclique_status_api rollsDemoState [] [] =
      ((), update_blockclique_status rollsDemoState [] []) ∧
    executeSlotOps [] ⟨0, 0⟩ [rejectedOp] = executeSlotOps [] ⟨0, 0⟩ [] :=
  ⟨update_blockclique_status_never_fails.1 rollsDemoState [] [],
   update_blockclique_status_never_fails.2 [] ⟨0, 0⟩ [] rejectedOp rfl⟩

/-- C10: cloning a boxed controller returns exactly the result of clone_box
on the same controller, and the clone is the very same shared-ownership
handle, addressing the same single worker: no worker and no worker state is
duplicated. -/
theorem clone_is_clone_box (c : ExecutionControllerHandle) :
    cloneController c = clone_box c ∧
    (cloneController c).worker_id = c.worker_id ∧
    cloneController c = c :=
  ⟨rfl, rfl, rfl⟩

/-- The parallel-balance query is the pointwise pairing of the two views. -/
theorem get_parallel_eq_map (st : ControllerState) (addresses : List Address) :
    get_final_and_active_parallel_balance st addresses =
      addresses.map (fun a =>
        (finalParallelBalance st a, candidateParallelBalance st a)) := by
  induction addresses with
  | nil => rfl
  | cons a rest ih => simp [get_final_and_active_parallel_balance, ih]

/-- The sequential-balance query is the pointwise pairing of the two views. -/
theorem get_sequential_eq_map (st : ControllerState)
    (addresses : List Address) :
    get_final_and_active_sequential_balance st addresses =
      addresses.map (fun a =>
        (finalSequentialBalance st a, candidateSequentialBalance st a)) := by
  induction addresses with
  | nil => rfl
  | cons a rest ih => simp [get_final_and_active_sequential_balance, ih]

/-- C4: both balance queries return one (final, candidate) pair of optional
balances per queried address, in order, and a component is none exactly when
the address is unknown to that view: absence is reported as none, never as
an error. -/
theorem get_balances_spec (st : ControllerState) (addresses : List Address) :
    (get_final_and_active_parallel_balance st addresses).length =
      addresses.length ∧
    (get_final_and_active_sequential_balance st addresses).length =
      addresses.length ∧
    (∀ i a, addresses.get? i = some a →
      (get_final_and_active_parallel_balance st addresses).get? i =
        some (finalParallelBalance st a, candidateParallelBalance st a) ∧
      (get_final_and_active_sequential_balance st addresses).get? i =
        some (finalSequentialBalance st a, candidateSequentialBalance st a)) ∧
    (∀ a,
      (finalParallelBalance st a = none ↔
        lookupLedger st.final_ledger a = none) ∧
      (candidateParallelBalance st a = none ↔
        lookupLedger st.candidate_ledger a = none) ∧
      (finalSequentialBalance st a = none ↔
        lookupLedger st.final_ledger a = none) ∧
      (candidateSequentialBalance st a = none ↔
        lookupLedger st.candidate_ledger a = none)) := by
  refine ⟨?_, ?_, ?_, ?_⟩
  · rw [get_parallel_eq_map]; exact List.length_map _ _
  · rw [get_sequential_eq_map]; exact List.length_map _ _
  · intro i a h
    rw [List.get?_eq_getElem?] at h
    rw [get_parallel_eq_map, get_sequential_eq_map]
    constructor <;> rw [List.get?_eq_getElem?, List.getElem?_map] <;> simp [h]
  · intro a
    refine ⟨?_, ?_, ?_, ?_⟩ <;>
      [cases h : lookupLedger st.final_ledger a;
       cases h : lookupLedger st.candidate_ledger a;
       cases h : lookupLedger st.final_ledger a;
       cases h : lookupLedger st.candidate_ledger a] <;>
      simp [finalParallelBalance, candidateParallelBalance,
        finalSequentialBalance, candidateSequentialBalance, h]

/-- A concrete state where address 1 is known to both views and address 2
only to the Candidate view. -/
def balancesDemoState : ControllerState :=
  { final_ledger :=
      [(1, { parallel_balance := 4, sequential_balance := 6,
             datastore := [] })],
    candidate_ledger :=
      [(1, { parallel_balance := 3, sequential_balance := 5,
             datastore := [] }),
       (2, { parallel_balance := 8, sequential_balance := 9,
             datastore := [] })],
    event_store := [], blockclique := [], executed_ops_final := [],
    executed_ops_candidate := [], cycle_roll_snapshots := [],
    contracts := [] }

theorem get_balances_spec_witness :
    (get_final_and_active_parallel_balance balancesDemoState [1, 2]).get? 0 =
      some (finalParallelBalance balancesDemoState 1,
            candidateParallelBalance balancesDemoState 1) ∧
    (get_final_and_active_sequential_balance balancesDemoState [1, 2]).get? 1 =
      some (finalSequentialBalance balancesDemoState 2,
            candidateSequentialBalance balancesDemoState 2) :=
  ⟨((get_balances_spec balancesDemoState [1, 2]).2.2.1 0 1 rfl).1,
   ((get_balances_spec balancesDemoState [1, 2]).2.2.1 1 2 rfl).2⟩

/-- Distinct keys give at most one entry per slot. -/
theorem atMostOne_of_nodupKeys : ∀ {m : List (Slot × BlockId × Storage)},
    (m.map Prod.fst).Nodup → atMostOneBlockPerSlot m := by
  intro m
  induction m with
  | nil => intro _ s; simp [List.filter]
  | cons x rest ih =>
    intro h s
    rw [List.map_cons, List.nodup_cons] at h
    obtain ⟨hx, hrest⟩ := h
    by_cases hxs : x.1 = s
    · rw [List.filter_cons_of_pos (by simp [hxs])]
      have hnil : rest.filter (fun e => e.1 == s) = [] := by
        rw [List.filter_eq_nil_iff]
        intro e he
        simp only [beq_iff_eq]
        intro hes
        exact hx (hxs ▸ hes ▸ List.mem_map_of_mem Prod.fst he)
      simp [hnil]
    · rw [List.filter_cons_of_neg (by simp [hxs])]
      exact ih hrest s

/-- A well-formed blockclique argument whose entries are not in slot
order: slot (2,0) precedes slot (1,0). -/
def unsortedBlockclique : List (Slot × BlockId × Storage) :=
  [(⟨2, 0⟩, 10, ⟨0, []⟩), (⟨1, 0⟩, 11, ⟨1, []⟩)]

/-- C9 counterexample: the blockclique argument of
update_blockclique_status is a HashMap value, and a HashMap value with
distinct slots need not be ordered by slot: this concrete well-formed
blockclique is not ordered by slot, refuting the ordered-by-slot part of
the claim. -/
theorem blockclique_not_ordered_by_slot :
    hashMapWF unsortedBlockclique ∧ ¬ orderedBySlot unsortedBlockclique := by
  unfold hashMapWF orderedBySlot unsortedBlockclique
  decide

/-- C9 (amended): the blockclique passed to update_blockclique_status is a
slot-keyed hash map with no guaranteed slot order; with its keys distinct it
associates at most one block with each slot, and the update replaces the
previously held blockclique with it. -/
theorem blockclique_at_most_one_and_replaced (st : ControllerState)
    (finalized blockclique : List (Slot × BlockId × Storage))
    (hwf : hashMapWF blockclique) :
    atMostOneBlockPerSlot blockclique ∧
    (update_blockclique_status st finalized blockclique).blockclique =
      blockclique :=
  ⟨atMostOne_of_nodupKeys hwf, rfl⟩

/-- A slot-sorted well-formed concrete blockclique. -/
def demoBlockclique : List (Slot × BlockId × Storage) :=
  [(⟨1, 0⟩, 21, ⟨0, []⟩), (⟨1, 1⟩, 22, ⟨1, []⟩)]

theorem blockclique_at_most_one_and_replaced_witness :
    atMostOneBlockPerSlot demoBlockclique ∧
    (update_blockclique_status balancesDemoState [] demoBlockclique).blockclique =
      demoBlockclique :=
  blockclique_at_most_one_and_replaced balancesDemoState [] demoBlockclique
    (by unfold hashMapWF demoBlockclique; decide)

end Massa
